import Mathlib

/-!
Shallow embedding of the CHIP-8 core in `src/chip8.rs` (struct `Chip8` and its
methods).  Conventions:

* Machine integers are `Nat`.  `u8`/`u16`/`usize` wrap-around is written
  explicitly (`% 256`, `% 2 ^ 64`, masks) exactly where the Rust code wraps
  (`wrapping_add`, `overflowing_add`, shifts).  Plain `+`/`-`/indexing in the
  Rust code can panic (debug overflow checks, array bounds checks); every such
  spot is modelled by an explicit test returning `Option.none` ("the program
  panics") — `usize` subtraction below zero, slice indexing out of range, and
  shift amounts at or above the bit width.
* The Rust structs `Registers`, `Memory` and `InputState` are flattened into a
  single `Chip8` structure, keeping the source field names
  (`v, dt, st, i, pc, sp, ram, stack, vram, curr, prev, key_just_released`).
* Arrays become total functions; reads/writes whose index is provably a 4-bit
  decoder field (`regx`, `regy`, always `< 16`) are done directly, while `ram`
  and `stack` accesses, whose index is data-dependent in the source, go through
  checked helpers mirroring the Rust bounds checks.
* `thread_rng().gen::<u8>()` is modelled by passing the random byte as an
  explicit argument `rand` to the step function.
* `(released_inputs as f32).log2() as u8` is modelled by `Nat.log2`: for a
  16-bit operand the `f32` computation is exact enough that the truncating cast
  yields the floor of the base-2 logarithm, and the saturating cast of
  `-inf` (operand `0`) yields `0 = Nat.log2 0`.
* The `Input` enum lives in the crate's `input.rs`, which is not part of the
  sources given; its two constructors `Pressed`/`Unpressed` are forced by the
  `match` in `Chip8::change_input` and by the interface description.
-/

/-- The instruction set, mirroring `enum Instruction` in `src/instructions.rs`
(`Address`, `Immediate` and `Register` are all integer aliases there). -/
inductive Instruction where
  | Unknown
  | Sys (addr : Nat)
  | Cls
  | Ret
  | Jump (addr : Nat)
  | JumpWithOffset (addr : Nat)
  | Call (addr : Nat)
  | SkipEqualImm (reg imm : Nat)
  | SkipEqualReg (regx regy : Nat)
  | SkipNotEqualImm (reg imm : Nat)
  | SkipNotEqualReg (regx regy : Nat)
  | LoadImm (reg imm : Nat)
  | LoadReg (regx regy : Nat)
  | LoadAddress (addr : Nat)
  | SetSpriteLoc (reg : Nat)
  | StoreBCD (reg : Nat)
  | StoreRegisters (reg : Nat)
  | ReadRegisters (reg : Nat)
  | AddImm (reg imm : Nat)
  | AddReg (regx regy : Nat)
  | AddIndex (reg : Nat)
  | SubReg (regx regy : Nat)
  | SubNReg (regx regy : Nat)
  | OrReg (regx regy : Nat)
  | AndReg (regx regy : Nat)
  | XorReg (regx regy : Nat)
  | ShiftRightReg (regx regy : Nat)
  | ShiftLeftReg (regx regy : Nat)
  | RandAndImmediate (reg imm : Nat)
  | Draw (regx regy imm : Nat)
  | SkipIfKeyPressed (reg : Nat)
  | SkipIfKeyNotPressed (reg : Nat)
  | StoreKeypress (reg : Nat)
  | ReadDelayTimer (reg : Nat)
  | WriteDelayTimer (reg : Nat)
  | WriteSoundTimer (reg : Nat)
deriving DecidableEq

/-- Key events, the `Input` enum consumed by `Chip8::change_input`. -/
inductive Input where
  | Pressed (key : Nat)
  | Unpressed (key : Nat)

/-- The machine state: the fields of `Registers`, `Memory` and `InputState`
from `src/chip8.rs`, flattened. -/
structure Chip8 where
  /-- the 16 general purpose registers `v: [u8; 16]` (indices used are always the 4-bit decoder fields) -/
  v : Nat → Nat
  /-- delay timer `dt: u8` -/
  dt : Nat
  /-- sound timer `st: u8` -/
  st : Nat
  /-- index register `i: usize` -/
  i : Nat
  /-- program counter `pc: usize` -/
  pc : Nat
  /-- stack pointer `sp: usize` -/
  sp : Nat
  /-- main memory `ram: [u8; 4096]` -/
  ram : Nat → Nat
  /-- call stack `stack: [usize; 1024]` -/
  stack : Nat → Nat
  /-- display `vram: [[bool; 64]; 32]`, row index first -/
  vram : Nat → Nat → Bool
  /-- current input bitmap `curr: u16` -/
  curr : Nat
  /-- previous input bitmap `prev: u16` -/
  prev : Nat
  /-- edge flag `key_just_released: bool` -/
  key_just_released : Bool

/-- `Chip8::new()`: everything zeroed except `pc = 0x200`. -/
def Chip8.new : Chip8 where
  v := fun _ => 0
  dt := 0
  st := 0
  i := 0
  pc := 0x200
  sp := 0
  ram := fun _ => 0
  stack := fun _ => 0
  vram := fun _ _ => false
  curr := 0
  prev := 0
  key_just_released := false

/-- Checked RAM read: `self.memory.ram[a]`, `none` = index panic. -/
def ramRead (s : Chip8) (a : Nat) : Option Nat :=
  if a < 4096 then some (s.ram a) else none

/-- Checked RAM write: `self.memory.ram[a] = b`, `none` = index panic. -/
def ramWrite (s : Chip8) (a b : Nat) : Option Chip8 :=
  if a < 4096 then some { s with ram := Function.update s.ram a b } else none

/-- Point update of the 2-dimensional VRAM array. -/
def vramWrite (f : Nat → Nat → Bool) (y x : Nat) (b : Bool) : Nat → Nat → Bool :=
  Function.update f y (Function.update (f y) x b)

/-- `Chip8::get_current_instruction`, as a pure function of the fetched
16-bit opcode (the fetch itself is separate, see `get_current_opcode`). -/
def decode (opcode : Nat) : Instruction :=
  let inst_word := (opcode &&& 0xF000) >>> 12
  let addr := opcode &&& 0x0FFF
  let nibble := opcode &&& 0x000F
  let imm := opcode &&& 0x00FF
  let regx := (opcode &&& 0x0F00) >>> 8
  let regy := (opcode &&& 0x00F0) >>> 4
  -- the Rust `match` arms on integer literals are written as the equivalent
  -- sequential equality tests
  match inst_word with
  | 0x0 =>
    if addr = 0x0E0 then .Cls
    else if addr = 0x0EE then .Ret
    else .Sys addr
  | 0x1 => .Jump addr
  | 0x2 => .Call addr
  | 0x3 => .SkipEqualImm regx imm
  | 0x4 => .SkipNotEqualImm regx imm
  | 0x5 => .SkipEqualReg regx regy
  | 0x6 => .LoadImm regx imm
  | 0x7 => .AddImm regx imm
  | 0x8 =>
    if nibble = 0x0 then .LoadReg regx regy
    else if nibble = 0x1 then .OrReg regx regy
    else if nibble = 0x2 then .AndReg regx regy
    else if nibble = 0x3 then .XorReg regx regy
    else if nibble = 0x4 then .AddReg regx regy
    else if nibble = 0x5 then .SubReg regx regy
    else if nibble = 0x6 then .ShiftRightReg regx regy
    else if nibble = 0x7 then .SubNReg regx regy
    else if nibble = 0xE then .ShiftLeftReg regx regy
    else .Unknown
  | 0x9 => .SkipNotEqualReg regx regy
  | 0xA => .LoadAddress addr
  | 0xB => .JumpWithOffset addr
  | 0xC => .RandAndImmediate regx imm
  | 0xD => .Draw regx regy nibble
  | 0xE =>
    if imm = 0x9E then .SkipIfKeyPressed regx
    else if imm = 0xA1 then .SkipIfKeyNotPressed regx
    else .Unknown
  | 0xF =>
    if imm = 0x07 then .ReadDelayTimer regx
    else if imm = 0x0A then .StoreKeypress regx
    else if imm = 0x15 then .WriteDelayTimer regx
    else if imm = 0x18 then .WriteSoundTimer regx
    else if imm = 0x1E then .AddIndex regx
    else if imm = 0x29 then .SetSpriteLoc regx
    else if imm = 0x33 then .StoreBCD regx
    else if imm = 0x55 then .StoreRegisters regx
    else if imm = 0x65 then .ReadRegisters regx
    else .Unknown
  | _ => .Unknown

/-- One pixel of the `Draw` arm: the body of the inner `col` loop for a sprite
byte already fetched, at sprite coordinates `(row, col)` and origin
`(start_x, start_y)`. -/
def drawPixel (start_x start_y row col byte : Nat) (s : Chip8) : Chip8 :=
  if 0 < (byte &&& (1 <<< (7 - col))) then
    let x := start_x + col
    let y := start_y + row
    if 64 ≤ x ∨ 32 ≤ y then s
    else
      let s1 := if s.vram y x then { s with v := Function.update s.v 15 1 } else s
      { s1 with vram := vramWrite s1.vram y x (Bool.xor (s1.vram y x) true) }
  else s

/-- The inner `for col in 0..8` loop of `Draw`, from column `col`,
with `k` columns left. -/
def drawCols (start_x start_y row byte : Nat) : Nat → Nat → Chip8 → Chip8
  | _, 0, s => s
  | col, k + 1, s =>
    drawCols start_x start_y row byte (col + 1) k (drawPixel start_x start_y row col byte s)

/-- The outer `for row in 0..imm` loop of `Draw`, from row `row`, with `k` rows
left.  Each row re-reads `ram[i + row]` from the current state (the checked
read panics when `i + row ≥ 4096`, exactly like the Rust indexing). -/
def drawRows (start_x start_y : Nat) : Nat → Nat → Chip8 → Option Chip8
  | _, 0, s => some s
  | row, k + 1, s =>
    match ramRead s (s.i + row) with
    | none => none
    | some byte => drawRows start_x start_y (row + 1) k (drawCols start_x start_y row byte 0 8 s)

/-- The `for r in 0..=reg` loop of `StoreRegisters`, from register `r`, with
`k` registers left. -/
def storeRegsLoop (iBase : Nat) : Nat → Nat → Chip8 → Option Chip8
  | _, 0, s => some s
  | r, k + 1, s =>
    match ramWrite s (iBase + r) (s.v r) with
    | none => none
    | some s' => storeRegsLoop iBase (r + 1) k s'

/-- The `for r in 0..=reg` loop of `ReadRegisters`, from register `r`, with
`k` registers left. -/
def readRegsLoop (iBase : Nat) : Nat → Nat → Chip8 → Option Chip8
  | _, 0, s => some s
  | r, k + 1, s =>
    match ramRead s (iBase + r) with
    | none => none
    | some b => readRegsLoop iBase (r + 1) k { s with v := Function.update s.v r b }

/-- The dispatch of `Chip8::do_next_instruction`: one case per `Instruction`
arm, mutating the state.  `none` models a panic.  The `Unknown` arm is never
reached here (the caller returns `Err` first, mirroring the `_ => return Err`
arm in the source). -/
def execInstr (rand : Nat) (instr : Instruction) (s : Chip8) : Option Chip8 :=
  match instr with
  | .Unknown => none
  | .Sys _ => some s
  | .Cls => some { s with vram := fun _ _ => false }
  | .Ret =>
    -- `sp -= 1` underflows when `sp = 0` (panic); then `stack[sp]` is a
    -- checked index
    if s.sp = 0 then none
    else if 1024 ≤ s.sp - 1 then none
    else some { s with sp := s.sp - 1, pc := s.stack (s.sp - 1) }
  | .Jump addr =>
    -- `addr - 0x2` underflows when `addr < 2` (panic)
    if addr < 2 then none else some { s with pc := addr - 2 }
  | .JumpWithOffset addr => some { s with pc := addr + s.v 0 }
  | .Call addr =>
    -- `stack[sp]` is a checked index; `addr - 0x2` underflows when `addr < 2`
    if 1024 ≤ s.sp then none
    else if addr < 2 then none
    else some { s with stack := Function.update s.stack s.sp s.pc,
                       sp := s.sp + 1, pc := addr - 2 }
  | .SkipEqualImm reg imm =>
    if s.v reg = imm then some { s with pc := s.pc + 2 } else some s
  | .SkipNotEqualImm reg imm =>
    if s.v reg ≠ imm then some { s with pc := s.pc + 2 } else some s
  | .SkipEqualReg regx regy =>
    if s.v regx = s.v regy then some { s with pc := s.pc + 2 } else some s
  | .SkipNotEqualReg regx regy =>
    if s.v regx ≠ s.v regy then some { s with pc := s.pc + 2 } else some s
  | .LoadImm reg imm => some { s with v := Function.update s.v reg imm }
  | .LoadReg regx regy => some { s with v := Function.update s.v regx (s.v regy) }
  | .LoadAddress addr => some { s with i := addr }
  | .ReadDelayTimer reg => some { s with v := Function.update s.v reg s.dt }
  | .WriteDelayTimer reg => some { s with dt := s.v reg }
  | .WriteSoundTimer reg => some { s with st := s.v reg }
  | .AddImm reg imm =>
    -- `wrapping_add` on `u8`
    some { s with v := Function.update s.v reg ((s.v reg + imm) % 256) }
  | .AddReg regx regy =>
    -- `overflowing_add` on `u8`; VF is written before the result
    let result := (s.v regx + s.v regy) % 256
    let carry := if 256 ≤ s.v regx + s.v regy then 1 else 0
    some { s with v := Function.update (Function.update s.v 15 carry) regx result }
  | .AddIndex reg =>
    -- `wrapping_add` on `usize`
    some { s with i := (s.i + s.v reg) % 2 ^ 64 }
  | .SubReg regx regy =>
    -- `overflowing_sub` on `u8` (operands are bytes); VF before the result
    let result := (s.v regx + 256 - s.v regy) % 256
    let noBorrow := if s.v regx < s.v regy then 0 else 1
    some { s with v := Function.update (Function.update s.v 15 noBorrow) regx result }
  | .SubNReg regx regy =>
    let result := (s.v regy + 256 - s.v regx) % 256
    let noBorrow := if s.v regy < s.v regx then 0 else 1
    some { s with v := Function.update (Function.update s.v 15 noBorrow) regx result }
  | .ShiftRightReg regx regy =>
    let v1 := Function.update s.v regx (s.v regy)
    let lsb := v1 regx &&& 0x01
    let v2 := Function.update v1 regx (v1 regx >>> 1)
    some { s with v := Function.update v2 15 lsb }
  | .ShiftLeftReg regx regy =>
    let v1 := Function.update s.v regx (s.v regy)
    let msb := (v1 regx &&& 0x80) >>> 7
    let v2 := Function.update v1 regx ((v1 regx <<< 1) % 256)
    some { s with v := Function.update v2 15 msb }
  | .OrReg regx regy =>
    some { s with v := Function.update (Function.update s.v regx (s.v regx ||| s.v regy)) 15 0 }
  | .AndReg regx regy =>
    some { s with v := Function.update (Function.update s.v regx (s.v regx &&& s.v regy)) 15 0 }
  | .XorReg regx regy =>
    some { s with v := Function.update (Function.update s.v regx (s.v regx ^^^ s.v regy)) 15 0 }
  | .RandAndImmediate reg imm =>
    some { s with v := Function.update (Function.update s.v reg ((rand % 256) &&& imm)) 15 0 }
  | .Draw regx regy imm =>
    -- VF is reset first; the origin reads `v` after that reset (source order)
    let s0 := { s with v := Function.update s.v 15 0 }
    let start_x := s0.v regx % 64
    let start_y := s0.v regy % 32
    drawRows start_x start_y 0 imm s0
  | .SetSpriteLoc reg => some { s with i := s.v reg * 5 }
  | .SkipIfKeyPressed reg =>
    -- `0x1 << v[reg]` on `u16`: shift amount ≥ 16 panics
    if 16 ≤ s.v reg then none
    else if 0 < (s.curr &&& (1 <<< s.v reg)) then some { s with pc := s.pc + 2 }
    else some s
  | .SkipIfKeyNotPressed reg =>
    if 16 ≤ s.v reg then none
    else if s.curr &&& (1 <<< s.v reg) = 0 then some { s with pc := s.pc + 2 }
    else some s
  | .StoreBCD reg =>
    let hundreds := s.v reg / 100
    let tens := s.v reg % 100 / 10
    let ones := s.v reg % 10
    match ramWrite s s.i hundreds with
    | none => none
    | some s1 =>
      match ramWrite s1 (s1.i + 1) tens with
      | none => none
      | some s2 => ramWrite s2 (s2.i + 2) ones
  | .StoreRegisters reg =>
    match storeRegsLoop s.i 0 (reg + 1) s with
    | none => none
    | some s' => some { s' with i := s'.i + reg + 1 }
  | .ReadRegisters reg =>
    match readRegsLoop s.i 0 (reg + 1) s with
    | none => none
    | some s' => some { s' with i := s'.i + reg + 1 }
  | .StoreKeypress reg =>
    if s.key_just_released then
      let changed_inputs := s.curr ^^^ s.prev
      -- `!curr` on `u16` is complement within 16 bits
      let released_inputs := changed_inputs &&& (0xFFFF ^^^ (s.curr &&& 0xFFFF))
      some { s with v := Function.update s.v reg (Nat.log2 released_inputs) }
    else
      -- `pc -= 2` underflows when `pc < 2` (panic)
      if s.pc < 2 then none else some { s with pc := s.pc - 2 }

/-- `Chip8::get_current_opcode`: big-endian fetch of `ram[pc]`, `ram[pc+1]`;
`none` = index panic. -/
def get_current_opcode (s : Chip8) : Option Nat :=
  match ramRead s s.pc, ramRead s (s.pc + 1) with
  | some hi, some lo => some ((hi <<< 8) ||| lo)
  | _, _ => none

/-- The result of one call of `do_next_instruction`: `Ok(opcode)` with the new
state, `Err(opcode)` with the (unchanged) state, or a panic. -/
inductive StepResult where
  | ok (opcode : Nat) (s : Chip8)
  | err (opcode : Nat) (s : Chip8)
  | panic
deriving Nonempty

/-- `Chip8::do_next_instruction`: fetch, decode, dispatch; the `Unknown` arm
returns `Err(opcode)` before the post-step bookkeeping, every other successful
arm is followed by `pc += 2` and clearing `key_just_released`. -/
def do_next_instruction (rand : Nat) (s : Chip8) : StepResult :=
  match get_current_opcode s with
  | none => .panic
  | some opcode =>
    match decode opcode with
    | .Unknown => .err opcode s
    | instr =>
      match execInstr rand instr s with
      | none => .panic
      | some s' => .ok opcode { s' with pc := s'.pc + 2, key_just_released := false }

/-- `Chip8::change_input`: shadow the current bitmap into `prev`, then apply
the event to `curr` (and raise the edge flag on a release). -/
def change_input (s : Chip8) (input : Input) : Chip8 :=
  let s1 := { s with prev := s.curr }
  match input with
  | .Pressed key => { s1 with curr := s1.curr ||| (1 <<< key) }
  | .Unpressed key =>
    { s1 with curr := s1.curr &&& (0xFFFF ^^^ ((1 <<< key) &&& 0xFFFF)),
              key_just_released := true }

/-- The copy loop of `Chip8::load_rom` (`for i in 0..bytes.len() { ram[0x200+i] = bytes[i] }`),
from byte index `idx`.  The second component records whether the loop panicked
on an out-of-bounds RAM index; the state returned is the state reached at that
moment (the Rust process aborts there). -/
def loadRomLoop : List Nat → Nat → Chip8 → Chip8 × Bool
  | [], _, s => (s, false)
  | b :: rest, idx, s =>
    if 0x200 + idx < 4096 then
      loadRomLoop rest (idx + 1) { s with ram := Function.update s.ram (0x200 + idx) b }
    else (s, true)

/-- `Chip8::load_rom`, with the file already read into `bytes`. -/
def load_rom (bytes : List Nat) (s : Chip8) : Chip8 × Bool :=
  loadRomLoop bytes 0 s

/-- Projection of a successful step. -/
def stepOk (rand : Nat) (s : Chip8) : Option Chip8 :=
  match do_next_instruction rand s with
  | .ok _ s' => some s'
  | _ => none

/-! ### Specification-side predicates

These definitions follow the words of the specification (not the source);
the theorems below compare the source-derived functions against them. -/

/-- Spec-side: the opcode families the specification lists as decoding to
`Unknown`: reserved `8xxx` trailing nibbles, `Exxx` other than `9E`/`A1`, and
`Fxxx` outside the listed set. -/
def unknownFamilyP (w : Nat) : Prop :=
  ((w &&& 0xF000) >>> 12 = 0x8 ∧ ¬((w &&& 0xF) ≤ 0x7 ∨ (w &&& 0xF) = 0xE)) ∨
  ((w &&& 0xF000) >>> 12 = 0xE ∧ ¬((w &&& 0xFF) = 0x9E ∨ (w &&& 0xFF) = 0xA1)) ∨
  ((w &&& 0xF000) >>> 12 = 0xF ∧ ¬((w &&& 0xFF) = 0x07 ∨ (w &&& 0xFF) = 0x0A ∨
    (w &&& 0xFF) = 0x15 ∨ (w &&& 0xFF) = 0x18 ∨ (w &&& 0xFF) = 0x1E ∨ (w &&& 0xFF) = 0x29 ∨
    (w &&& 0xFF) = 0x33 ∨ (w &&& 0xFF) = 0x55 ∨ (w &&& 0xFF) = 0x65))

/-- Spec-side: side conditions under which one step keeps the program counter
even and inside RAM: control transfers must target even in-range addresses,
and `JumpWithOffset` (whose landing `addr + V0 + 2` respects neither bound) is
excluded. -/
def jumpTargetsOK (s : Chip8) : Instruction → Prop
  | .Jump addr => addr % 2 = 0 ∧ addr < 4096
  | .Call addr => addr % 2 = 0 ∧ addr < 4096
  | .Ret => s.stack (s.sp - 1) % 2 = 0 ∧ s.stack (s.sp - 1) + 2 < 4096
  | .JumpWithOffset _ => False
  | _ => True

/-- Spec-side: whether sprite-byte `byte` has its `col`-th bit set (MSB
first), the test the draw loop performs. -/
def spriteBit (byte col : Nat) : Bool :=
  decide (0 < (byte &&& (1 <<< (7 - col))))

/-- Spec-side: the single sprite pixel at `(row, col)` of a sprite byte is
set, lands on screen cell `(py, px)`, and is not clipped at the right or
bottom edge. -/
def pixelHitB (start_x start_y row col byte py px : Nat) : Bool :=
  spriteBit byte col && (py == start_y + row) && (px == start_x + col) &&
    decide (start_x + col < 64) && decide (start_y + row < 32)

/-- Spec-side: some column among the `k` columns starting at `col` hits
`(py, px)`. -/
def colsHitB (start_x start_y row byte : Nat) : Nat → Nat → Nat → Nat → Bool
  | _, 0, _, _ => false
  | col, k + 1, py, px =>
    pixelHitB start_x start_y row col byte py px ||
      colsHitB start_x start_y row byte (col + 1) k py px

/-- Spec-side: some set, unclipped sprite bit among the `k` rows starting at
`row` (8 columns each, row bytes given by `bytes`) hits `(py, px)`. -/
def drawHitB (start_x start_y : Nat) (bytes : Nat → Nat) : Nat → Nat → Nat → Nat → Bool
  | _, 0, _, _ => false
  | row, k + 1, py, px =>
    colsHitB start_x start_y row (bytes row) 0 8 py px ||
      drawHitB start_x start_y bytes (row + 1) k py px

/-- Spec-side: the sprite pixel at `(row, col)` is set, unclipped, and lands
on a cell of `vr` that is already on. -/
def pixelCollideB (start_x start_y row col byte : Nat) (vr : Nat → Nat → Bool) : Bool :=
  spriteBit byte col && decide (start_x + col < 64) && decide (start_y + row < 32) &&
    vr (start_y + row) (start_x + col)

/-- Spec-side: some column among the `k` starting at `col` collides. -/
def colsCollideB (start_x start_y row byte : Nat) (vr : Nat → Nat → Bool) : Nat → Nat → Bool
  | _, 0 => false
  | col, k + 1 =>
    pixelCollideB start_x start_y row col byte vr ||
      colsCollideB start_x start_y row byte vr (col + 1) k

/-- Spec-side: some set, unclipped sprite bit among the `k` rows starting at
`row` lands on an already-on cell of `vr`. -/
def drawCollideB (start_x start_y : Nat) (bytes : Nat → Nat) (vr : Nat → Nat → Bool) :
    Nat → Nat → Bool
  | _, 0 => false
  | row, k + 1 =>
    colsCollideB start_x start_y row (bytes row) vr 0 8 ||
      drawCollideB start_x start_y bytes vr (row + 1) k

/-! ### Concrete machine states used by counterexamples and witnesses -/

/-- A state about to execute `RET` (`0x00EE`) with an empty stack. -/
def retState : Chip8 :=
  { Chip8.new with ram := fun a => if a = 0x200 then 0x00 else if a = 0x201 then 0xEE else 0 }

/-- A state about to execute `CALL 0x200` (`0x2200`) with a full stack. -/
def callFullState : Chip8 :=
  { Chip8.new with
    ram := fun a => if a = 0x200 then 0x22 else if a = 0x201 then 0x00 else 0,
    sp := 1024 }

/-- A state about to execute `BCD V0` (`0xF033`) with `I = 0xFFF`, so the
second BCD byte goes to RAM index 4096. -/
def bcdHighIState : Chip8 :=
  { Chip8.new with
    ram := fun a => if a = 0x200 then 0xF0 else if a = 0x201 then 0x33 else 0,
    i := 0xFFF }

/-- A state about to execute `JP V0, 0x202` (`0xB202`) with `V0 = 1`: the
step lands the program counter on the odd address `0x205`. -/
def oddLandState : Chip8 :=
  { Chip8.new with
    ram := fun a => if a = 0x200 then 0xB2 else if a = 0x201 then 0x02 else 0,
    v := fun r => if r = 0 then 1 else 0 }

/-- A state about to execute `DRW V0, V1, 2` (`0xD012`) with `I = 4095`: the
second sprite row is read from RAM index 4096. -/
def drawOOBState : Chip8 :=
  { Chip8.new with
    ram := fun a => if a = 0x200 then 0xD0 else if a = 0x201 then 0x12 else 0,
    i := 4095 }

/-- A state whose program is `LD [I], V0` (`0xF055`) then `LD V0, [I]`
(`0xF065`), with `V0 = 5` and `I = 0`. -/
def storePairState : Chip8 :=
  { Chip8.new with
    ram := fun a =>
      if a = 0x200 then 0xF0 else if a = 0x201 then 0x55
      else if a = 0x202 then 0xF0 else if a = 0x203 then 0x65 else 0,
    v := fun r => if r = 0 then 5 else 0 }

/-- The state reached after the store step of `storePairState`. -/
def storePairMid : Chip8 := (stepOk 0 storePairState).getD Chip8.new

/-- A state about to execute `OR V0, V1` (`0x8011`) with `V0 = 0xF0`,
`V1 = 0x0F`. -/
def orWitState : Chip8 :=
  { Chip8.new with
    ram := fun a => if a = 0x200 then 0x80 else if a = 0x201 then 0x11 else 0,
    v := fun r => if r = 0 then 0xF0 else if r = 1 then 0x0F else 0 }

/-- A state whose current opcode `0x8008` (reserved `8xxx` nibble) decodes to
`Unknown`. -/
def unknownState : Chip8 :=
  { Chip8.new with ram := fun a => if a = 0x200 then 0x80 else if a = 0x201 then 0x08 else 0 }

/-- A state about to execute `JP V0, 0x300` (`0xB300`) with `V0 = 5`. -/
def jwoWitState : Chip8 :=
  { Chip8.new with
    ram := fun a => if a = 0x200 then 0xB3 else if a = 0x201 then 0x00 else 0,
    v := fun r => if r = 0 then 5 else 0 }

/-- A state about to execute `LD V0, 0x42` (`0x6042`). -/
def ldState : Chip8 :=
  { Chip8.new with ram := fun a => if a = 0x200 then 0x60 else if a = 0x201 then 0x42 else 0 }

/-- A state about to execute `DRW V0, V1, 1` (`0xD011`) with a one-byte sprite
`0x80` at `I = 0`, drawing a single pixel at the origin. -/
def drawWitState : Chip8 :=
  { Chip8.new with
    ram := fun a =>
      if a = 0x200 then 0xD0 else if a = 0x201 then 0x11 else if a = 0 then 0x80 else 0 }

/-! ### General lemmas -/

theorem nibble_lt_16 (w : Nat) : (w &&& 0xF000) >>> 12 < 16 := by
  have h : w &&& 0xF000 ≤ 0xF000 := Nat.and_le_right
  omega

set_option maxHeartbeats 1600000 in
theorem decode_unknown_iff (w : Nat) : decode w = .Unknown ↔ unknownFamilyP w := by
  have hlt := nibble_lt_16 w
  unfold decode unknownFamilyP
  dsimp only
  split
  all_goals try split_ifs
  all_goals
    first
      | exact iff_of_false (fun h => nomatch h) (by omega)
      | exact iff_of_true rfl (by omega)
      | (simp only [imp_false] at *; exact absurd hlt (by omega))

/-! ### Claim theorems -/

/-- C2 (counterexample): executing `RET` with `SP = 0`, or `CALL` with the
stack full (`SP = 1024`), makes `do_next_instruction` panic (usize underflow
resp. out-of-bounds stack index): no fault value is surfaced, contradicting
the claim that the step reports stack under/overflow as an error value. -/
theorem C2_stack_fault_counterexample :
    decode 0x00EE = .Ret ∧ retState.sp = 0 ∧
      do_next_instruction 0 retState = .panic ∧
    decode 0x2200 = .Call 0x200 ∧ callFullState.sp = 1024 ∧
      do_next_instruction 0 callFullState = .panic :=
  ⟨rfl, rfl, rfl, rfl, rfl, rfl⟩

/-- C2 (amended): `RET` with `SP = 0` and `CALL` with `SP ≥ 1024` always make
the step panic (crash); `do_next_instruction` never returns in these cases,
so no error value is surfaced and no state is produced. -/
theorem C2_stack_fault_panics (rand : Nat) (s : Chip8) (op : Nat)
    (hop : get_current_opcode s = some op) :
    (decode op = .Ret → s.sp = 0 → do_next_instruction rand s = .panic) ∧
    (∀ addr, decode op = .Call addr → 1024 ≤ s.sp → do_next_instruction rand s = .panic) := by
  constructor
  · intro hd hsp
    simp only [do_next_instruction, hop, hd, execInstr, hsp, eq_self_iff_true, if_true]
  · intro addr hd hsp
    simp only [do_next_instruction, hop, hd, execInstr, if_pos hsp]

/-- C2 (witness): the amended theorem applied at the two concrete states. -/
theorem C2_stack_fault_panics_witness :
    do_next_instruction 0 retState = .panic ∧ do_next_instruction 0 callFullState = .panic :=
  ⟨(C2_stack_fault_panics 0 retState 0x00EE rfl).1 rfl rfl,
   (C2_stack_fault_panics 0 callFullState 0x2200 rfl).2 0x200 rfl (by decide)⟩

/-- C3 (code bug): executing `BCD V0` with `I = 0xFFF` indexes RAM at 4096,
out of bounds: the step panics instead of keeping every RAM access below
4096.  The code never masks `I` to 12 bits, contradicting the `i` field's own
documentation and the spec's address-range invariant. -/
theorem C3_ram_oob :
    decode 0xF033 = .StoreBCD 0 ∧ bcdHighIState.i = 0xFFF ∧
      do_next_instruction 0 bcdHighIState = .panic :=
  ⟨rfl, rfl, rfl⟩

/-- C5 (counterexample): from a state running `JP V0, 0x202` with `V0 = 1`
(a perfectly encoded ROM with an even jump target; `V0` is runtime data) a
successful step leaves `PC = 0x205`, which is odd. -/
theorem C5_pc_counterexample :
    (stepOk 0 oddLandState).map Chip8.pc = some 0x205 ∧ (0x205 : Nat) % 2 = 1 :=
  ⟨rfl, rfl⟩

/-- C6 (counterexample): two presses delivered in a row (no step in between)
leave `prev` equal to the bitmap immediately before the second call (`0b10`),
not the bitmap before the last step (`0`, the initial value). -/
theorem C6_prev_counterexample :
    (change_input (change_input Chip8.new (.Pressed 1)) (.Pressed 2)).prev = 2 ∧
    Chip8.new.curr = 0 ∧ (2 : Nat) ≠ 0 :=
  ⟨rfl, rfl, by decide⟩

/-- C6 (amended): `change_input (Pressed k)` sets bit `k` of the current
bitmap and copies the bitmap the machine had immediately before this call
into `prev` — a per-event shadow, not the value before the last step. -/
theorem C6_press_semantics (s : Chip8) (k : Nat) :
    (change_input s (.Pressed k)).prev = s.curr ∧
    (change_input s (.Pressed k)).curr = s.curr ||| (1 <<< k) ∧
    Nat.testBit (change_input s (.Pressed k)).curr k = true ∧
    (change_input s (.Pressed k)).key_just_released = s.key_just_released := by
  refine ⟨rfl, rfl, ?_, rfl⟩
  have h : (change_input s (.Pressed k)).curr = s.curr ||| (1 <<< k) := rfl
  rw [h, Nat.testBit_lor, Nat.shiftLeft_eq, one_mul, Nat.testBit_two_pow_self,
    Bool.or_true]

/-- C7: executing `JP V0, addr` makes the step succeed and, after the
post-step `+2`, land the program counter exactly on `addr + V0 + 2`. -/
theorem C7_jump_with_offset_landing (rand : Nat) (s : Chip8) (op addr : Nat)
    (hop : get_current_opcode s = some op)
    (hd : decode op = .JumpWithOffset addr) :
    ∃ s', do_next_instruction rand s = .ok op s' ∧ s'.pc = addr + s.v 0 + 2 := by
  simp only [do_next_instruction, hop, hd, execInstr]
  exact ⟨_, rfl, rfl⟩

/-- C7 (witness): `JP V0, 0x300` with `V0 = 5` lands on `0x307`. -/
theorem C7_jump_with_offset_witness :
    ∃ s', do_next_instruction 0 jwoWitState = .ok 0xB300 s' ∧
      s'.pc = 0x300 + jwoWitState.v 0 + 2 :=
  C7_jump_with_offset_landing 0 jwoWitState 0xB300 0x300 rfl rfl

/-- C8: `OR`/`AND`/`XOR` assign `Vx ← Vx op Vy` and then `VF ← 0` (the COSMAC
quirk), in that order, for all operands; in particular `VF` is 0 afterwards
regardless of the operands. -/
theorem C8_logic_ops_clear_vf (rand : Nat) (s : Chip8) (op x y : Nat)
    (hop : get_current_opcode s = some op) :
    (decode op = .OrReg x y → ∃ s', do_next_instruction rand s = .ok op s' ∧
      s'.v = Function.update (Function.update s.v x (s.v x ||| s.v y)) 15 0 ∧ s'.v 15 = 0) ∧
    (decode op = .AndReg x y → ∃ s', do_next_instruction rand s = .ok op s' ∧
      s'.v = Function.update (Function.update s.v x (s.v x &&& s.v y)) 15 0 ∧ s'.v 15 = 0) ∧
    (decode op = .XorReg x y → ∃ s', do_next_instruction rand s = .ok op s' ∧
      s'.v = Function.update (Function.update s.v x (s.v x ^^^ s.v y)) 15 0 ∧ s'.v 15 = 0) := by
  refine ⟨fun hd => ?_, fun hd => ?_, fun hd => ?_⟩ <;>
  · simp only [do_next_instruction, hop, hd, execInstr]
    exact ⟨_, rfl, rfl, by simp [Function.update_same]⟩

/-- C8 (witness): `OR V0, V1` with `V0 = 0xF0`, `V1 = 0x0F`. -/
theorem C8_logic_ops_witness :
    ∃ s', do_next_instruction 0 orWitState = .ok 0x8011 s' ∧
      s'.v = Function.update
        (Function.update orWitState.v 0 (orWitState.v 0 ||| orWitState.v 1)) 15 0 ∧
      s'.v 15 = 0 :=
  (C8_logic_ops_clear_vf 0 orWitState 0x8011 0 1 rfl).1 rfl

/-- C10: when the current opcode decodes to the `Unknown` sentinel the step
returns `Err` carrying that opcode and the state is left entirely unchanged
(no `PC` advance, no flag clear), so the same opcode is fetched again next
step; and the opcodes decoding to `Unknown` are exactly the reserved `8xxx`
nibbles, `Exxx` outside `9E`/`A1`, and `Fxxx` outside the listed set. -/
theorem C10_unknown_err_unchanged (rand : Nat) (s : Chip8) (op : Nat)
    (hop : get_current_opcode s = some op) :
    (decode op = .Unknown → do_next_instruction rand s = .err op s) ∧
    (decode op = .Unknown ↔ unknownFamilyP op) := by
  constructor
  · intro hd
    simp only [do_next_instruction, hop, hd]
  · exact decode_unknown_iff op

/-- C10 (witness): opcode `0x8008` (a reserved `8xxx` nibble). -/
theorem C10_unknown_err_witness :
    do_next_instruction 0 unknownState = .err 0x8008 unknownState ∧
    (decode 0x8008 = .Unknown ↔ unknownFamilyP 0x8008) :=
  ⟨(C10_unknown_err_unchanged 0 unknownState 0x8008 rfl).1 rfl,
   (C10_unknown_err_unchanged 0 unknownState 0x8008 rfl).2⟩

theorem loadRomLoop_spec : ∀ (bytes : List Nat) (idx : Nat) (s : Chip8),
    ((loadRomLoop bytes idx s).2 = true ↔ 4096 - (0x200 + idx) < bytes.length) ∧
    (∀ j, j < bytes.length → 0x200 + idx + j < 4096 →
      (loadRomLoop bytes idx s).1.ram (0x200 + idx + j) = bytes.getD j 0) ∧
    (∀ a, (∀ j, j < bytes.length → 0x200 + idx + j < 4096 → a ≠ 0x200 + idx + j) →
      (loadRomLoop bytes idx s).1.ram a = s.ram a) := by
  intro bytes
  induction bytes with
  | nil =>
    intro idx s
    refine ⟨by simp [loadRomLoop], fun j hj => absurd hj (by simp), fun a _ => rfl⟩
  | cons b rest ih =>
    intro idx s
    by_cases h : 0x200 + idx < 4096
    · have hunfold : loadRomLoop (b :: rest) idx s =
        loadRomLoop rest (idx + 1) { s with ram := Function.update s.ram (0x200 + idx) b } := by
        simp [loadRomLoop, h]
      obtain ⟨ih1, ih2, ih3⟩ := ih (idx + 1) { s with ram := Function.update s.ram (0x200 + idx) b }
      refine ⟨?_, ?_, ?_⟩
      · rw [hunfold, ih1]
        simp only [List.length_cons]
        omega
      · intro j hj hjlt
        rw [hunfold]
        match j with
        | 0 =>
          have hcell := ih3 (0x200 + idx) (fun j' _ _ => by omega)
          rw [show 0x200 + idx + 0 = 0x200 + idx by omega, hcell]
          simp [Function.update_same]
        | j' + 1 =>
          have := ih2 j' (by simpa using hj) (by omega)
          rw [show 0x200 + idx + (j' + 1) = 0x200 + (idx + 1) + j' by omega]
          rw [this]
          rfl
      · intro a ha
        rw [hunfold, ih3 a (fun j' hj' hlt' => by
          have h2 := ha (j' + 1) (by simpa using hj') (by omega)
          omega)]
        exact Function.update_noteq (ha 0 (by simp) (by omega)) _ _
    · have hunfold : loadRomLoop (b :: rest) idx s = (s, true) := by
        simp [loadRomLoop, h]
      refine ⟨?_, ?_, fun a _ => by rw [hunfold]⟩
      · rw [hunfold]
        exact iff_of_true rfl (by simp only [List.length_cons]; omega)
      · intro j hj hjlt
        omega

/-- C9 (amended): a ROM longer than 3584 bytes makes `load_rom` panic on the
out-of-bounds RAM index; no byte is written at or beyond RAM index 4096, but
by the moment of the panic the first 3584 bytes have already been copied to
`0x200..0xFFF` — the core is not left in its pre-load state, and the failure
is a crash, not a reported error. -/
theorem C9_load_rom_overflow (bytes : List Nat) (s : Chip8) (h : 3584 < bytes.length) :
    (load_rom bytes s).2 = true ∧
    (∀ a, 4096 ≤ a → (load_rom bytes s).1.ram a = s.ram a) ∧
    (∀ j, j < 3584 → (load_rom bytes s).1.ram (0x200 + j) = bytes.getD j 0) := by
  obtain ⟨h1, h2, h3⟩ := loadRomLoop_spec bytes 0 s
  refine ⟨h1.mpr (by omega), fun a ha => h3 a (fun j hj hlt => by omega), fun j hj => ?_⟩

  have := h2 j (by omega) (by omega)
  rwa [show 0x200 + 0 + j = 0x200 + j by omega] at this

/-- C9 (counterexample): loading a 3585-byte ROM into a fresh core panics,
but RAM cell `0x200` has already been overwritten (`0xAB` instead of the
pre-load `0`), refuting "the core remains in its pre-load state / no RAM cell
is modified by the failed load". -/
theorem C9_preload_state_counterexample :
    (load_rom (0xAB :: List.replicate 3584 0xAB) Chip8.new).2 = true ∧
    (load_rom (0xAB :: List.replicate 3584 0xAB) Chip8.new).1.ram 0x200 = 0xAB ∧
    Chip8.new.ram 0x200 = 0 := by
  obtain ⟨h1, h2, _⟩ := loadRomLoop_spec (0xAB :: List.replicate 3584 0xAB) 0 Chip8.new
  have hlen : (0xAB :: List.replicate 3584 (0xAB : Nat)).length = 3585 := by
    rw [List.length_cons, List.length_replicate]
  refine ⟨h1.mpr (by rw [hlen]; omega), ?_, rfl⟩
  have := h2 0 (by rw [hlen]; omega) (by omega)
  simpa only [load_rom, List.getD_cons_zero, Nat.add_zero] using this

/-- C9 (witness): the amended theorem applied to a concrete 3585-byte ROM. -/
theorem C9_load_rom_overflow_witness :
    3584 < (0xAB :: List.replicate 3584 (0xAB : Nat)).length ∧
    (load_rom (0xAB :: List.replicate 3584 (0xAB : Nat)) Chip8.new).2 = true ∧
    (load_rom (0xAB :: List.replicate 3584 (0xAB : Nat)) Chip8.new).1.ram 4096 =
      Chip8.new.ram 4096 := by
  have h : 3584 < (0xAB :: List.replicate 3584 (0xAB : Nat)).length := by
    rw [List.length_cons, List.length_replicate]
    omega
  obtain ⟨h1, h2, _⟩ := C9_load_rom_overflow (0xAB :: List.replicate 3584 0xAB) Chip8.new h
  exact ⟨h, h1, h2 4096 (le_refl _)⟩

theorem ramWrite_pc {s s' : Chip8} {a b : Nat} (h : ramWrite s a b = some s') :
    s'.pc = s.pc := by
  unfold ramWrite at h
  split at h
  · cases h; rfl
  · cases h

theorem storeRegsLoop_pc (iBase : Nat) :
    ∀ (k r : Nat) (s s' : Chip8), storeRegsLoop iBase r k s = some s' → s'.pc = s.pc := by
  intro k
  induction k with
  | zero => intro r s s' h; cases h; rfl
  | succ n ih =>
    intro r s s' h
    unfold storeRegsLoop at h
    split at h
    · cases h
    · rename_i s1 hw
      rw [ih (r + 1) s1 s' h, ramWrite_pc hw]

theorem readRegsLoop_pc (iBase : Nat) :
    ∀ (k r : Nat) (s s' : Chip8), readRegsLoop iBase r k s = some s' → s'.pc = s.pc := by
  intro k
  induction k with
  | zero => intro r s s' h; cases h; rfl
  | succ n ih =>
    intro r s s' h
    unfold readRegsLoop at h
    split at h
    · cases h
    · rename_i b hr
      rw [ih (r + 1) _ s' h]

theorem drawPixel_pc (sx sy row col byte : Nat) (s : Chip8) :
    (drawPixel sx sy row col byte s).pc = s.pc := by
  unfold drawPixel
  dsimp only
  split
  · split
    · rfl
    · split <;> rfl
  · rfl

theorem drawCols_pc (sx sy row byte : Nat) :
    ∀ (k col : Nat) (s : Chip8), (drawCols sx sy row byte col k s).pc = s.pc := by
  intro k
  induction k with
  | zero => intro col s; rfl
  | succ n ih =>
    intro col s
    rw [drawCols, ih (col + 1), drawPixel_pc]

theorem drawRows_pc (sx sy : Nat) :
    ∀ (k row : Nat) (s s' : Chip8), drawRows sx sy row k s = some s' → s'.pc = s.pc := by
  intro k
  induction k with
  | zero => intro row s s' h; cases h; rfl
  | succ n ih =>
    intro row s s' h
    unfold drawRows at h
    split at h
    · cases h
    · rename_i byte hb
      rw [ih (row + 1) _ s' h, drawCols_pc]

/-- C5 (amended): after a successful step the program counter stays below
4096 and even, under the side conditions `jumpTargetsOK`: even in-range
`Jump`/`Call` targets, an even in-range popped address on `Ret`, and no
`JumpWithOffset` (counterexample `C5_pc_counterexample` shows that arm breaks
the invariant even for a correctly encoded ROM). -/
theorem C5_pc_invariant (rand : Nat) (s : Chip8) (op : Nat) (instr : Instruction)
    (hop : get_current_opcode s = some op) (hd : decode op = instr)
    (hpc2 : s.pc % 2 = 0) (hpc4 : s.pc + 4 < 4096)
    (hok : jumpTargetsOK s instr) :
    ∀ op' s', do_next_instruction rand s = .ok op' s' → s'.pc < 4096 ∧ s'.pc % 2 = 0 := by
  intro op' s' hstep
  simp only [do_next_instruction, hop, hd] at hstep
  cases instr with
  | Unknown => nomatch hstep
  | Sys addr =>
    simp only [execInstr] at hstep
    cases hstep
    dsimp only
    omega
  | Cls =>
    simp only [execInstr] at hstep
    cases hstep
    dsimp only
    omega
  | Ret =>
    simp only [jumpTargetsOK] at hok
    simp only [execInstr] at hstep
    split at hstep
    · nomatch hstep
    · rename_i s1 heq
      cases hstep
      split at heq
      · nomatch heq
      · split at heq
        · nomatch heq
        · rw [Option.some.injEq] at heq
          subst heq
          dsimp only
          omega
  | Jump addr =>
    simp only [jumpTargetsOK] at hok
    simp only [execInstr] at hstep
    split at hstep
    · nomatch hstep
    · rename_i s1 heq
      cases hstep
      split at heq
      · nomatch heq
      · rw [Option.some.injEq] at heq
        subst heq
        dsimp only
        omega
  | JumpWithOffset addr =>
    simp only [jumpTargetsOK] at hok
  | Call addr =>
    simp only [jumpTargetsOK] at hok
    simp only [execInstr] at hstep
    split at hstep
    · nomatch hstep
    · rename_i s1 heq
      cases hstep
      split at heq
      · nomatch heq
      · split at heq
        · nomatch heq
        · rw [Option.some.injEq] at heq
          subst heq
          dsimp only
          omega
  | SkipEqualImm reg imm =>
    simp only [execInstr] at hstep
    split at hstep
    · nomatch hstep
    · rename_i s1 heq
      cases hstep
      split at heq <;>
        (rw [Option.some.injEq] at heq; subst heq; dsimp only; omega)
  | SkipNotEqualImm reg imm =>
    simp only [execInstr] at hstep
    split at hstep
    · nomatch hstep
    · rename_i s1 heq
      cases hstep
      split at heq <;>
        (rw [Option.some.injEq] at heq; subst heq; dsimp only; omega)
  | SkipEqualReg regx regy =>
    simp only [execInstr] at hstep
    split at hstep
    · nomatch hstep
    · rename_i s1 heq
      cases hstep
      split at heq <;>
        (rw [Option.some.injEq] at heq; subst heq; dsimp only; omega)
  | SkipNotEqualReg regx regy =>
    simp only [execInstr] at hstep
    split at hstep
    · nomatch hstep
    · rename_i s1 heq
      cases hstep
      split at heq <;>
        (rw [Option.some.injEq] at heq; subst heq; dsimp only; omega)
  | LoadImm reg imm =>
    simp only [execInstr] at hstep
    cases hstep
    dsimp only
    omega
  | LoadReg regx regy =>
    simp only [execInstr] at hstep
    cases hstep
    dsimp only
    omega
  | LoadAddress addr =>
    simp only [execInstr] at hstep
    cases hstep
    dsimp only
    omega
  | SetSpriteLoc reg =>
    simp only [execInstr] at hstep
    cases hstep
    dsimp only
    omega
  | StoreBCD reg =>
    simp only [execInstr] at hstep
    split at hstep
    · nomatch hstep
    · rename_i s1 heq
      cases hstep
      split at heq
      · nomatch heq
      · rename_i sA hA
        split at heq
        · nomatch heq
        · rename_i sB hB
          have p1 := ramWrite_pc hA
          have p2 := ramWrite_pc hB
          have p3 := ramWrite_pc heq
          dsimp only
          omega
  | StoreRegisters reg =>
    simp only [execInstr] at hstep
    split at hstep
    · nomatch hstep
    · rename_i s1 heq
      cases hstep
      split at heq
      · nomatch heq
      · rename_i sA hA
        rw [Option.some.injEq] at heq
        subst heq
        have hp := storeRegsLoop_pc s.i (reg + 1) 0 s sA hA
        dsimp only
        omega
  | ReadRegisters reg =>
    simp only [execInstr] at hstep
    split at hstep
    · nomatch hstep
    · rename_i s1 heq
      cases hstep
      split at heq
      · nomatch heq
      · rename_i sA hA
        rw [Option.some.injEq] at heq
        subst heq
        have hp := readRegsLoop_pc s.i (reg + 1) 0 s sA hA
        dsimp only
        omega
  | AddImm reg imm =>
    simp only [execInstr] at hstep
    cases hstep
    dsimp only
    omega
  | AddReg regx regy =>
    simp only [execInstr] at hstep
    cases hstep
    dsimp only
    omega
  | AddIndex reg =>
    simp only [execInstr] at hstep
    cases hstep
    dsimp only
    omega
  | SubReg regx regy =>
    simp only [execInstr] at hstep
    cases hstep
    dsimp only
    omega
  | SubNReg regx regy =>
    simp only [execInstr] at hstep
    cases hstep
    dsimp only
    omega
  | OrReg regx regy =>
    simp only [execInstr] at hstep
    cases hstep
    dsimp only
    omega
  | AndReg regx regy =>
    simp only [execInstr] at hstep
    cases hstep
    dsimp only
    omega
  | XorReg regx regy =>
    simp only [execInstr] at hstep
    cases hstep
    dsimp only
    omega
  | ShiftRightReg regx regy =>
    simp only [execInstr] at hstep
    cases hstep
    dsimp only
    omega
  | ShiftLeftReg regx regy =>
    simp only [execInstr] at hstep
    cases hstep
    dsimp only
    omega
  | RandAndImmediate reg imm =>
    simp only [execInstr] at hstep
    cases hstep
    dsimp only
    omega
  | Draw regx regy imm =>
    simp only [execInstr] at hstep
    split at hstep
    · nomatch hstep
    · rename_i s1 heq
      cases hstep
      have hp := drawRows_pc _ _ imm 0 _ s1 heq
      dsimp only at hp
      dsimp only
      omega
  | SkipIfKeyPressed reg =>
    simp only [execInstr] at hstep
    split at hstep
    · nomatch hstep
    · rename_i s1 heq
      cases hstep
      split at heq
      · nomatch heq
      · split at heq <;>
          (rw [Option.some.injEq] at heq; subst heq; dsimp only; omega)
  | SkipIfKeyNotPressed reg =>
    simp only [execInstr] at hstep
    split at hstep
    · nomatch hstep
    · rename_i s1 heq
      cases hstep
      split at heq
      · nomatch heq
      · split at heq <;>
          (rw [Option.some.injEq] at heq; subst heq; dsimp only; omega)
  | StoreKeypress reg =>
    simp only [execInstr] at hstep
    split at hstep
    · nomatch hstep
    · rename_i s1 heq
      cases hstep
      split at heq
      · rw [Option.some.injEq] at heq
        subst heq
        dsimp only
        omega
      · split at heq
        · nomatch heq
        · rw [Option.some.injEq] at heq
          subst heq
          dsimp only
          omega
  | ReadDelayTimer reg =>
    simp only [execInstr] at hstep
    cases hstep
    dsimp only
    omega
  | WriteDelayTimer reg =>
    simp only [execInstr] at hstep
    cases hstep
    dsimp only
    omega
  | WriteSoundTimer reg =>
    simp only [execInstr] at hstep
    cases hstep
    dsimp only
    omega

/-- C5 (witness): the invariant applied to a concrete `LD V0, 0x42` step from
`PC = 0x200`, landing on `0x202`. -/
theorem C5_pc_invariant_witness :
    ((stepOk 0 ldState).getD Chip8.new).pc < 4096 ∧
    ((stepOk 0 ldState).getD Chip8.new).pc % 2 = 0 :=
  C5_pc_invariant 0 ldState 0x6042 (.LoadImm 0 0x42) rfl rfl (by decide) (by decide)
    trivial 0x6042 ((stepOk 0 ldState).getD Chip8.new) rfl

theorem storeRegsLoop_spec (iBase : Nat) :
    ∀ (k r : Nat) (s : Chip8), (∀ j, j < k → iBase + r + j < 4096) →
    ∃ s', storeRegsLoop iBase r k s = some s' ∧
      (∀ j, j < k → s'.ram (iBase + r + j) = s.v (r + j)) ∧
      (∀ a, (∀ j, j < k → a ≠ iBase + r + j) → s'.ram a = s.ram a) ∧
      s'.v = s.v ∧ s'.i = s.i := by
  intro k
  induction k with
  | zero =>
    intro r s _
    exact ⟨s, rfl, fun j hj => absurd hj (Nat.not_lt_zero j), fun a _ => rfl, rfl, rfl⟩
  | succ n ih =>
    intro r s hb
    have h0 : iBase + r < 4096 := by have := hb 0 (Nat.succ_pos n); omega
    obtain ⟨s', hloop, hw, hpres, hv, hi⟩ :=
      ih (r + 1) { s with ram := Function.update s.ram (iBase + r) (s.v r) }
        (fun j hj => by have := hb (j + 1) (by omega); omega)
    refine ⟨s', ?_, ?_, ?_, hv, hi⟩
    · show storeRegsLoop iBase r (n + 1) s = some s'
      unfold storeRegsLoop
      rw [show ramWrite s (iBase + r) (s.v r) =
            some { s with ram := Function.update s.ram (iBase + r) (s.v r) } from by
        unfold ramWrite; rw [if_pos h0]]
      exact hloop
    · intro j hj
      cases j with
      | zero =>
        have hcell := hpres (iBase + r) (fun j' hj' => by omega)
        rw [show iBase + r + 0 = iBase + r by omega, hcell]
        show Function.update s.ram (iBase + r) (s.v r) (iBase + r) = s.v (r + 0)
        rw [Function.update_same, show r + 0 = r by omega]
      | succ j' =>
        have := hw j' (by omega)
        rw [show iBase + r + (j' + 1) = iBase + (r + 1) + j' by omega,
            show r + (j' + 1) = r + 1 + j' by omega]
        exact this
    · intro a ha
      rw [hpres a (fun j' hj' => by have := ha (j' + 1) (by omega); omega)]
      exact Function.update_noteq (by have := ha 0 (by omega); omega) _ _

theorem readRegsLoop_spec (iBase : Nat) :
    ∀ (k r : Nat) (s : Chip8), (∀ j, j < k → iBase + r + j < 4096) →
    ∃ s', readRegsLoop iBase r k s = some s' ∧
      (∀ j, j < k → s'.v (r + j) = s.ram (iBase + r + j)) ∧
      (∀ t, (∀ j, j < k → t ≠ r + j) → s'.v t = s.v t) ∧
      s'.ram = s.ram ∧ s'.i = s.i := by
  intro k
  induction k with
  | zero =>
    intro r s _
    exact ⟨s, rfl, fun j hj => absurd hj (Nat.not_lt_zero j), fun t _ => rfl, rfl, rfl⟩
  | succ n ih =>
    intro r s hb
    have h0 : iBase + r < 4096 := by have := hb 0 (Nat.succ_pos n); omega
    obtain ⟨s', hloop, hw, hpres, hram, hi⟩ :=
      ih (r + 1) { s with v := Function.update s.v r (s.ram (iBase + r)) }
        (fun j hj => by have := hb (j + 1) (by omega); omega)
    refine ⟨s', ?_, ?_, ?_, hram, hi⟩
    · show readRegsLoop iBase r (n + 1) s = some s'
      unfold readRegsLoop
      rw [show ramRead s (iBase + r) = some (s.ram (iBase + r)) from by
        unfold ramRead; rw [if_pos h0]]
      exact hloop
    · intro j hj
      cases j with
      | zero =>
        have hcell := hpres r (fun j' hj' => by omega)
        rw [show r + 0 = r by omega, hcell]
        show Function.update s.v r (s.ram (iBase + r)) r = s.ram (iBase + r + 0)
        rw [Function.update_same, show iBase + r + 0 = iBase + r by omega]
      | succ j' =>
        have := hw j' (by omega)
        rw [show r + (j' + 1) = r + 1 + j' by omega,
            show iBase + r + (j' + 1) = iBase + (r + 1) + j' by omega]
        rw [this]
    · intro t ht
      rw [hpres t (fun j' hj' => by have := ht (j' + 1) (by omega); omega)]
      exact Function.update_noteq (by have := ht 0 (by omega); omega) _ _

/-- C4 (counterexample): from `V0 = 5`, `I = 0`, zeroed RAM (apart from the
program), `LD [I], V0` followed by `LD V0, [I]` yields `V0 = 0`, not the
original `5`: both operations advance `I` by `x + 1`, so the load reads the
block after the stored one. -/
theorem C4_roundtrip_counterexample :
    storePairState.v 0 = 5 ∧
    ((stepOk 0 storePairState).bind (stepOk 0)).map (fun t => t.v 0) = some 0 ∧
    (5 : Nat) ≠ 0 :=
  ⟨rfl, rfl, by decide⟩

/-- C4 (amended): store-registers writes `V0..Vx` at `I..I+x` and advances
`I` by `x+1`; a following load-registers therefore reads the `x+1` bytes at
the advanced `I`, leaving each `Vr` (`r ≤ x`) equal to the byte RAM held at
`I₀ + (x+1) + r` (`I₀` the index register before the pair) — not the value
`Vr` had before the pair — and leaves `I = I₀ + 2(x+1)`. -/
theorem C4_store_then_load (rand1 rand2 : Nat) (s : Chip8) (op1 op2 x : Nat) (s1 : Chip8)
    (hop1 : get_current_opcode s = some op1) (hd1 : decode op1 = .StoreRegisters x)
    (hbound : s.i + 2 * x + 2 ≤ 4096)
    (hstep1 : do_next_instruction rand1 s = .ok op1 s1)
    (hop2 : get_current_opcode s1 = some op2) (hd2 : decode op2 = .ReadRegisters x) :
    ∃ s2, do_next_instruction rand2 s1 = .ok op2 s2 ∧
      (∀ r, r ≤ x → s2.v r = s.ram (s.i + (x + 1) + r)) ∧
      s2.i = s.i + 2 * (x + 1) := by
  obtain ⟨sA, hloop, hw, hpres, hv, hi⟩ :=
    storeRegsLoop_spec s.i (x + 1) 0 s (fun j hj => by omega)
  simp only [do_next_instruction, hop1, hd1, execInstr, hloop] at hstep1
  rw [StepResult.ok.injEq] at hstep1
  obtain ⟨-, hs1⟩ := hstep1
  subst hs1
  obtain ⟨sB, hloop2, hw2, hpres2, hram2, hi2⟩ :=
    readRegsLoop_spec (sA.i + x + 1) (x + 1) 0
      { v := sA.v, dt := sA.dt, st := sA.st, i := sA.i + x + 1, pc := sA.pc + 2, sp := sA.sp,
        ram := sA.ram, stack := sA.stack, vram := sA.vram, curr := sA.curr, prev := sA.prev,
        key_just_released := false }
      (fun j hj => by omega)
  refine ⟨{ v := sB.v, dt := sB.dt, st := sB.st, i := sB.i + x + 1, pc := sB.pc + 2,
            sp := sB.sp, ram := sB.ram, stack := sB.stack, vram := sB.vram, curr := sB.curr,
            prev := sB.prev, key_just_released := false }, ?_, ?_, ?_⟩
  · simp only [do_next_instruction, hop2, hd2, execInstr]
    rw [hloop2]
  · intro r hr
    have h1 := hw2 r (by omega)
    rw [Nat.zero_add r] at h1
    dsimp only at h1
    have h2 := hpres (sA.i + x + 1 + 0 + r) (fun j hj => by omega)
    dsimp only
    rw [h1, h2, show sA.i + x + 1 + 0 + r = s.i + (x + 1) + r by omega]
  · dsimp only at hi2
    dsimp only
    omega

/-- C4 (witness): the amended theorem applied to the concrete
store-then-load program of `storePairState` (`x = 0`, `V0 = 5`, `I = 0`):
afterwards `V0` equals `RAM[1] = 0` and `I = 2`. -/
theorem C4_store_then_load_witness :
    ∃ s2, do_next_instruction 0 storePairMid = .ok 0xF065 s2 ∧
      (∀ r, r ≤ 0 → s2.v r = storePairState.ram (storePairState.i + (0 + 1) + r)) ∧
      s2.i = storePairState.i + 2 * (0 + 1) :=
  C4_store_then_load 0 0 storePairState 0xF055 0xF065 0 storePairMid rfl rfl (by decide)
    rfl rfl rfl

theorem vramWrite_apply (f : Nat → Nat → Bool) (y x : Nat) (b : Bool) (py px : Nat) :
    vramWrite f y x b py px = if py = y ∧ px = x then b else f py px := by
  unfold vramWrite
  rcases eq_or_ne py y with rfl | hy
  · rw [Function.update_same, Function.update_apply]
    by_cases hx : px = x <;> simp [hx]
  · rw [Function.update_noteq hy, if_neg (fun hc => hy hc.1)]

theorem drawPixel_vram (start_x start_y row col byte : Nat) (s : Chip8) (py px : Nat) :
    (drawPixel start_x start_y row col byte s).vram py px =
      if pixelHitB start_x start_y row col byte py px = true
      then !(s.vram py px) else s.vram py px := by
  unfold drawPixel
  by_cases hbit : 0 < (byte &&& (1 <<< (7 - col)))
  · rw [if_pos hbit]
    dsimp only
    by_cases hclip : 64 ≤ start_x + col ∨ 32 ≤ start_y + row
    · rw [if_pos hclip, if_neg]
      simp only [pixelHitB, Bool.and_eq_true, decide_eq_true_eq, beq_iff_eq, not_and]
      intro ⟨⟨⟨_, _⟩, h64⟩, h32⟩
      omega
    · rw [if_neg hclip]
      have hsv : (if s.vram (start_y + row) (start_x + col)
          then { s with v := Function.update s.v 15 1 } else s).vram = s.vram := by
        split <;> rfl
      dsimp only
      rw [hsv, vramWrite_apply]
      have hcond : (pixelHitB start_x start_y row col byte py px = true) ↔
          (py = start_y + row ∧ px = start_x + col) := by
        simp only [pixelHitB, spriteBit, Bool.and_eq_true, decide_eq_true_eq, beq_iff_eq]
        constructor
        · rintro ⟨⟨⟨⟨-, h1⟩, h2⟩, -⟩, -⟩
          exact ⟨h1, h2⟩
        · rintro ⟨h1, h2⟩
          refine ⟨⟨⟨⟨hbit, h1⟩, h2⟩, by omega⟩, by omega⟩
      by_cases hc : py = start_y + row ∧ px = start_x + col
      · rw [if_pos hc, if_pos (hcond.mpr hc)]
        rw [hc.1, hc.2, Bool.xor_true]
      · rw [if_neg hc, if_neg (fun h => hc (hcond.mp h))]
  · rw [if_neg hbit, if_neg]
    simp only [pixelHitB, spriteBit, Bool.and_eq_true, decide_eq_true_eq]
    intro ⟨⟨⟨⟨h, _⟩, _⟩, _⟩, _⟩
    exact hbit h

theorem drawPixel_vf (start_x start_y row col byte : Nat) (s : Chip8) :
    (drawPixel start_x start_y row col byte s).v 15 =
      if pixelCollideB start_x start_y row col byte s.vram = true then 1 else s.v 15 := by
  unfold drawPixel
  by_cases hbit : 0 < (byte &&& (1 <<< (7 - col)))
  · rw [if_pos hbit]
    dsimp only
    by_cases hclip : 64 ≤ start_x + col ∨ 32 ≤ start_y + row
    · rw [if_pos hclip, if_neg]
      simp only [pixelCollideB, Bool.and_eq_true, decide_eq_true_eq]
      rintro ⟨⟨⟨-, h64⟩, h32⟩, -⟩
      omega
    · rw [if_neg hclip]
      by_cases hcell : s.vram (start_y + row) (start_x + col)
      · rw [if_pos hcell]
        dsimp only
        rw [Function.update_same, if_pos]
        simp only [pixelCollideB, spriteBit, Bool.and_eq_true, decide_eq_true_eq]
        exact ⟨⟨⟨hbit, by omega⟩, by omega⟩, hcell⟩
      · rw [if_neg hcell]
        dsimp only
        rw [if_neg]
        simp only [pixelCollideB, Bool.and_eq_true]
        rintro ⟨-, hc⟩
        exact hcell hc
  · rw [if_neg hbit, if_neg]
    simp only [pixelCollideB, spriteBit, Bool.and_eq_true, decide_eq_true_eq]
    rintro ⟨⟨⟨h, -⟩, -⟩, -⟩
    exact hbit h

theorem drawPixel_v_ne (start_x start_y row col byte : Nat) (s : Chip8) (t : Nat)
    (ht : t ≠ 15) : (drawPixel start_x start_y row col byte s).v t = s.v t := by
  unfold drawPixel
  split
  · dsimp only
    split
    · rfl
    · split
      · dsimp only
        exact Function.update_noteq ht _ _
      · rfl
  · rfl

theorem drawPixel_ram (start_x start_y row col byte : Nat) (s : Chip8) :
    (drawPixel start_x start_y row col byte s).ram = s.ram := by
  unfold drawPixel
  split
  · dsimp only
    split
    · rfl
    · split <;> rfl
  · rfl

theorem drawPixel_i (start_x start_y row col byte : Nat) (s : Chip8) :
    (drawPixel start_x start_y row col byte s).i = s.i := by
  unfold drawPixel
  split
  · dsimp only
    split
    · rfl
    · split <;> rfl
  · rfl

theorem colsHitB_iff (start_x start_y row byte : Nat) :
    ∀ (k col py px : Nat), colsHitB start_x start_y row byte col k py px = true ↔
      ∃ c, col ≤ c ∧ c < col + k ∧ spriteBit byte c = true ∧ py = start_y + row ∧
        px = start_x + c ∧ start_x + c < 64 ∧ start_y + row < 32 := by
  intro k
  induction k with
  | zero =>
    intro col py px
    simp only [colsHitB, Bool.false_eq_true, false_iff]
    rintro ⟨c, h1, h2, -⟩
    omega
  | succ n ih =>
    intro col py px
    simp only [colsHitB, Bool.or_eq_true, ih (col + 1), pixelHitB, Bool.and_eq_true,
      beq_iff_eq, decide_eq_true_eq]
    constructor
    · rintro (⟨⟨⟨⟨hs, h1⟩, h2⟩, h3⟩, h4⟩ | ⟨c, hc1, hc2, hs, h1, h2, h3, h4⟩)
      · exact ⟨col, by omega, by omega, hs, h1, h2, h3, h4⟩
      · exact ⟨c, by omega, by omega, hs, h1, h2, h3, h4⟩
    · rintro ⟨c, hc1, hc2, hs, h1, h2, h3, h4⟩
      rcases Nat.eq_or_lt_of_le hc1 with rfl | hlt
      · exact Or.inl ⟨⟨⟨⟨hs, h1⟩, h2⟩, h3⟩, h4⟩
      · exact Or.inr ⟨c, by omega, by omega, hs, h1, h2, h3, h4⟩

theorem drawHitB_iff (start_x start_y : Nat) (bytes : Nat → Nat) :
    ∀ (k row py px : Nat), drawHitB start_x start_y bytes row k py px = true ↔
      ∃ r, row ≤ r ∧ r < row + k ∧ ∃ c, c < 8 ∧ spriteBit (bytes r) c = true ∧
        py = start_y + r ∧ px = start_x + c ∧ start_x + c < 64 ∧ start_y + r < 32 := by
  intro k
  induction k with
  | zero =>
    intro row py px
    simp only [drawHitB, Bool.false_eq_true, false_iff]
    rintro ⟨r, h1, h2, -⟩
    omega
  | succ n ih =>
    intro row py px
    simp only [drawHitB, Bool.or_eq_true, ih (row + 1),
      colsHitB_iff start_x start_y row (bytes row)]
    constructor
    · rintro (⟨c, hc0, hc8, hs, h1, h2, h3, h4⟩ | ⟨r, hr1, hr2, c, hc, hs, h1, h2, h3, h4⟩)
      · exact ⟨row, by omega, by omega, c, by omega, hs, h1, h2, h3, h4⟩
      · exact ⟨r, by omega, by omega, c, hc, hs, h1, h2, h3, h4⟩
    · rintro ⟨r, hr1, hr2, c, hc, hs, h1, h2, h3, h4⟩
      rcases Nat.eq_or_lt_of_le hr1 with rfl | hlt
      · exact Or.inl ⟨c, by omega, by omega, hs, h1, h2, h3, h4⟩
      · exact Or.inr ⟨r, by omega, by omega, c, hc, hs, h1, h2, h3, h4⟩

theorem colsCollideB_congr (start_x start_y row byte : Nat) :
    ∀ (k col : Nat) (vr1 vr2 : Nat → Nat → Bool),
      (∀ c, col ≤ c → c < col + k →
        vr1 (start_y + row) (start_x + c) = vr2 (start_y + row) (start_x + c)) →
      colsCollideB start_x start_y row byte vr1 col k =
        colsCollideB start_x start_y row byte vr2 col k := by
  intro k
  induction k with
  | zero => intro col vr1 vr2 _; rfl
  | succ n ih =>
    intro col vr1 vr2 h
    show (pixelCollideB start_x start_y row col byte vr1 ||
        colsCollideB start_x start_y row byte vr1 (col + 1) n) =
      (pixelCollideB start_x start_y row col byte vr2 ||
        colsCollideB start_x start_y row byte vr2 (col + 1) n)
    rw [show pixelCollideB start_x start_y row col byte vr1 =
          pixelCollideB start_x start_y row col byte vr2 from by
        unfold pixelCollideB; rw [h col (by omega) (by omega)],
      ih (col + 1) vr1 vr2 (fun c h1 h2 => h c (by omega) (by omega))]

theorem drawCollideB_congr (start_x start_y : Nat) (bytes : Nat → Nat) :
    ∀ (k row : Nat) (vr1 vr2 : Nat → Nat → Bool),
      (∀ r c, row ≤ r → r < row + k → c < 8 →
        vr1 (start_y + r) (start_x + c) = vr2 (start_y + r) (start_x + c)) →
      drawCollideB start_x start_y bytes vr1 row k =
        drawCollideB start_x start_y bytes vr2 row k := by
  intro k
  induction k with
  | zero => intro row vr1 vr2 _; rfl
  | succ n ih =>
    intro row vr1 vr2 h
    show (colsCollideB start_x start_y row (bytes row) vr1 0 8 ||
        drawCollideB start_x start_y bytes vr1 (row + 1) n) =
      (colsCollideB start_x start_y row (bytes row) vr2 0 8 ||
        drawCollideB start_x start_y bytes vr2 (row + 1) n)
    rw [colsCollideB_congr start_x start_y row (bytes row) 8 0 vr1 vr2
        (fun c h1 h2 => h row c (by omega) (by omega) (by omega)),
      ih (row + 1) vr1 vr2 (fun r c h1 h2 h3 => h r c (by omega) (by omega) h3)]

theorem drawCols_spec (start_x start_y row byte : Nat) :
    ∀ (k col : Nat) (s : Chip8),
      (∀ py px, (drawCols start_x start_y row byte col k s).vram py px =
        if colsHitB start_x start_y row byte col k py px = true
        then !(s.vram py px) else s.vram py px) ∧
      ((drawCols start_x start_y row byte col k s).v 15 =
        if colsCollideB start_x start_y row byte s.vram col k = true then 1 else s.v 15) ∧
      (∀ t, t ≠ 15 → (drawCols start_x start_y row byte col k s).v t = s.v t) ∧
      (drawCols start_x start_y row byte col k s).ram = s.ram ∧
      (drawCols start_x start_y row byte col k s).i = s.i := by
  intro k
  induction k with
  | zero =>
    intro col s
    exact ⟨fun py px => by simp [drawCols, colsHitB], by simp [drawCols, colsCollideB],
      fun t _ => rfl, rfl, rfl⟩
  | succ n ih =>
    intro col s
    obtain ⟨ihv, ihf, ihne, ihram, ihi⟩ := ih (col + 1) (drawPixel start_x start_y row col byte s)
    have hstep : drawCols start_x start_y row byte col (n + 1) s =
        drawCols start_x start_y row byte (col + 1) n
          (drawPixel start_x start_y row col byte s) := rfl
    refine ⟨?_, ?_, ?_, ?_, ?_⟩
    · intro py px
      rw [hstep, ihv py px, drawPixel_vram,
        show colsHitB start_x start_y row byte col (n + 1) py px =
          (pixelHitB start_x start_y row col byte py px ||
            colsHitB start_x start_y row byte (col + 1) n py px) from rfl]
      cases hp : pixelHitB start_x start_y row col byte py px <;>
        cases hr : colsHitB start_x start_y row byte (col + 1) n py px <;>
        simp only [Bool.false_or, Bool.true_or, Bool.or_false, Bool.or_true,
          if_pos, if_neg, Bool.true_eq_false, Bool.false_eq_true, if_true, if_false,
          reduceIte]
      -- remaining case: both head pixel and a later column hit the same cell
      exfalso
      have h1 : px = start_x + col := by
        have := hp
        simp only [pixelHitB, Bool.and_eq_true, beq_iff_eq, decide_eq_true_eq] at this
        exact this.1.1.2
      obtain ⟨c, hc1, -, -, -, h2, -⟩ := (colsHitB_iff start_x start_y row byte n (col + 1) py px).mp hr
      omega
    · rw [hstep, ihf,
        colsCollideB_congr start_x start_y row byte n (col + 1)
          (drawPixel start_x start_y row col byte s).vram s.vram
          (fun c h1 h2 => by
            rw [drawPixel_vram, if_neg]
            simp only [pixelHitB, Bool.and_eq_true, beq_iff_eq, decide_eq_true_eq, not_and]
            intro h
            omega),
        drawPixel_vf,
        show colsCollideB start_x start_y row byte s.vram col (n + 1) =
          (pixelCollideB start_x start_y row col byte s.vram ||
            colsCollideB start_x start_y row byte s.vram (col + 1) n) from rfl]
      cases hp : pixelCollideB start_x start_y row col byte s.vram <;>
        cases hr : colsCollideB start_x start_y row byte s.vram (col + 1) n <;>
        simp
    · intro t ht
      rw [hstep, ihne t ht, drawPixel_v_ne _ _ _ _ _ _ _ ht]
    · rw [hstep, ihram, drawPixel_ram]
    · rw [hstep, ihi, drawPixel_i]

theorem drawRows_spec (start_x start_y : Nat) :
    ∀ (k row : Nat) (s : Chip8), (∀ j, j < k → s.i + (row + j) < 4096) →
      ∃ s', drawRows start_x start_y row k s = some s' ∧
        (∀ py px, s'.vram py px =
          if drawHitB start_x start_y (fun r => s.ram (s.i + r)) row k py px = true
          then !(s.vram py px) else s.vram py px) ∧
        (s'.v 15 =
          if drawCollideB start_x start_y (fun r => s.ram (s.i + r)) s.vram row k = true
          then 1 else s.v 15) ∧
        (∀ t, t ≠ 15 → s'.v t = s.v t) ∧ s'.ram = s.ram ∧ s'.i = s.i := by
  intro k
  induction k with
  | zero =>
    intro row s _
    exact ⟨s, rfl, fun py px => by simp [drawHitB], by simp [drawCollideB],
      fun t _ => rfl, rfl, rfl⟩
  | succ n ih =>
    intro row s hb
    have h0 : s.i + row < 4096 := by have := hb 0 (Nat.succ_pos n); omega
    obtain ⟨cv, cf, cne, cram, ci⟩ :=
      drawCols_spec start_x start_y row (s.ram (s.i + row)) 8 0 s
    obtain ⟨s', hloop, hv, hf, hne, hram, hi⟩ :=
      ih (row + 1) (drawCols start_x start_y row (s.ram (s.i + row)) 0 8 s)
        (fun j hj => by rw [ci]; have := hb (j + 1) (by omega); omega)
    rw [cram, ci] at hv hf
    refine ⟨s', ?_, ?_, ?_, ?_, ?_, ?_⟩
    · show drawRows start_x start_y row (n + 1) s = some s'
      unfold drawRows
      rw [show ramRead s (s.i + row) = some (s.ram (s.i + row)) from by
        unfold ramRead; rw [if_pos h0]]
      exact hloop
    · intro py px
      rw [hv py px, cv py px,
        show drawHitB start_x start_y (fun r => s.ram (s.i + r)) row (n + 1) py px =
          (colsHitB start_x start_y row (s.ram (s.i + row)) 0 8 py px ||
            drawHitB start_x start_y (fun r => s.ram (s.i + r)) (row + 1) n py px) from rfl]
      cases hp : colsHitB start_x start_y row (s.ram (s.i + row)) 0 8 py px <;>
        cases hr : drawHitB start_x start_y (fun r => s.ram (s.i + r)) (row + 1) n py px <;>
        simp only [Bool.false_or, Bool.true_or, Bool.or_false, Bool.or_true,
          Bool.true_eq_false, Bool.false_eq_true, if_true, if_false, reduceIte]
      -- remaining case: the head row and a later row hit the same cell
      exfalso
      have h1 : py = start_y + row := by
        obtain ⟨c, -, -, -, h1, -⟩ :=
          (colsHitB_iff start_x start_y row (s.ram (s.i + row)) 8 0 py px).mp hp
        exact h1
      obtain ⟨r, hr1, -, c, -, -, h2, -⟩ :=
        (drawHitB_iff start_x start_y (fun r => s.ram (s.i + r)) n (row + 1) py px).mp hr
      omega
    · rw [hf, cf,
        drawCollideB_congr start_x start_y (fun r => s.ram (s.i + r)) n (row + 1)
          (drawCols start_x start_y row (s.ram (s.i + row)) 0 8 s).vram s.vram
          (fun r c h1 h2 h3 => by
            rw [cv (start_y + r) (start_x + c), if_neg]
            intro h
            obtain ⟨c', -, -, -, h1', -⟩ :=
              (colsHitB_iff start_x start_y row (s.ram (s.i + row)) 8 0
                (start_y + r) (start_x + c)).mp h
            omega),
        show drawCollideB start_x start_y (fun r => s.ram (s.i + r)) s.vram row (n + 1) =
          (colsCollideB start_x start_y row (s.ram (s.i + row)) s.vram 0 8 ||
            drawCollideB start_x start_y (fun r => s.ram (s.i + r)) s.vram (row + 1) n)
          from rfl]
      cases hp : colsCollideB start_x start_y row (s.ram (s.i + row)) s.vram 0 8 <;>
        cases hr : drawCollideB start_x start_y (fun r => s.ram (s.i + r)) s.vram (row + 1) n <;>
        simp
    · intro t ht
      rw [hne t ht, cne t ht]
    · rw [hram, cram]
    · rw [hi, ci]

theorem colsCollideB_iff (start_x start_y row byte : Nat) (vr : Nat → Nat → Bool) :
    ∀ (k col : Nat), colsCollideB start_x start_y row byte vr col k = true ↔
      ∃ c, col ≤ c ∧ c < col + k ∧ spriteBit byte c = true ∧ start_x + c < 64 ∧
        start_y + row < 32 ∧ vr (start_y + row) (start_x + c) = true := by
  intro k
  induction k with
  | zero =>
    intro col
    simp only [colsCollideB, Bool.false_eq_true, false_iff]
    rintro ⟨c, h1, h2, -⟩
    omega
  | succ n ih =>
    intro col
    simp only [colsCollideB, Bool.or_eq_true, ih (col + 1), pixelCollideB,
      Bool.and_eq_true, decide_eq_true_eq]
    constructor
    · rintro (⟨⟨⟨hs, h1⟩, h2⟩, h3⟩ | ⟨c, hc1, hc2, hs, h1, h2, h3⟩)
      · exact ⟨col, by omega, by omega, hs, h1, h2, h3⟩
      · exact ⟨c, by omega, by omega, hs, h1, h2, h3⟩
    · rintro ⟨c, hc1, hc2, hs, h1, h2, h3⟩
      rcases Nat.eq_or_lt_of_le hc1 with rfl | hlt
      · exact Or.inl ⟨⟨⟨hs, h1⟩, h2⟩, h3⟩
      · exact Or.inr ⟨c, by omega, by omega, hs, h1, h2, h3⟩

theorem drawCollideB_iff (start_x start_y : Nat) (bytes : Nat → Nat) (vr : Nat → Nat → Bool) :
    ∀ (k row : Nat), drawCollideB start_x start_y bytes vr row k = true ↔
      ∃ r, row ≤ r ∧ r < row + k ∧ ∃ c, c < 8 ∧ spriteBit (bytes r) c = true ∧
        start_x + c < 64 ∧ start_y + r < 32 ∧ vr (start_y + r) (start_x + c) = true := by
  intro k
  induction k with
  | zero =>
    intro row
    simp only [drawCollideB, Bool.false_eq_true, false_iff]
    rintro ⟨r, h1, h2, -⟩
    omega
  | succ n ih =>
    intro row
    simp only [drawCollideB, Bool.or_eq_true, ih (row + 1),
      colsCollideB_iff start_x start_y row (bytes row) vr 8]
    constructor
    · rintro (⟨c, hc0, hc8, hs, h1, h2, h3⟩ | ⟨r, hr1, hr2, c, hc, hs, h1, h2, h3⟩)
      · exact ⟨row, by omega, by omega, c, by omega, hs, h1, h2, h3⟩
      · exact ⟨r, by omega, by omega, c, hc, hs, h1, h2, h3⟩
    · rintro ⟨r, hr1, hr2, c, hc, hs, h1, h2, h3⟩
      rcases Nat.eq_or_lt_of_le hr1 with rfl | hlt
      · exact Or.inl ⟨c, by omega, by omega, hs, h1, h2, h3⟩
      · exact Or.inr ⟨r, by omega, by omega, c, hc, hs, h1, h2, h3⟩

/-- C1 (amended): when every sprite row is inside RAM (`I + n ≤ 4096`), the
`Draw` arm first clears VF, reads the origin as `Vx mod 64` / `Vy mod 32`
(from the register file after the VF reset, in source order), XOR-draws
exactly the set sprite bits that stay inside the screen (clipping, not
wrapping, at the right and bottom edges), and ends with `VF = 1` iff some
drawn bit landed on an already-on cell (`VF = 0` otherwise).  Registers other
than VF are untouched.  Without the RAM bound the step can panic
(`C1_draw_oob_counterexample`). -/
theorem C1_draw_semantics (rand : Nat) (s : Chip8) (op x y n start_x start_y : Nat)
    (hop : get_current_opcode s = some op) (hd : decode op = .Draw x y n)
    (hsx : start_x = Function.update s.v 15 0 x % 64)
    (hsy : start_y = Function.update s.v 15 0 y % 32)
    (hbound : s.i + n ≤ 4096) :
    ∃ s', do_next_instruction rand s = .ok op s' ∧
      (∀ py px, s'.vram py px =
        if drawHitB start_x start_y (fun r => s.ram (s.i + r)) 0 n py px = true
        then !(s.vram py px) else s.vram py px) ∧
      (∀ py px, drawHitB start_x start_y (fun r => s.ram (s.i + r)) 0 n py px = true ↔
        ∃ r, r < n ∧ ∃ c, c < 8 ∧ spriteBit (s.ram (s.i + r)) c = true ∧
          py = start_y + r ∧ px = start_x + c ∧ start_x + c < 64 ∧ start_y + r < 32) ∧
      (s'.v 15 =
        if drawCollideB start_x start_y (fun r => s.ram (s.i + r)) s.vram 0 n = true
        then 1 else 0) ∧
      (s'.v 15 = 1 ↔
        ∃ r, r < n ∧ ∃ c, c < 8 ∧ spriteBit (s.ram (s.i + r)) c = true ∧
          start_x + c < 64 ∧ start_y + r < 32 ∧ s.vram (start_y + r) (start_x + c) = true) ∧
      (∀ t, t ≠ 15 → s'.v t = s.v t) := by
  subst hsx
  subst hsy
  obtain ⟨sD, hloop, hv, hf, hne, hram, hi⟩ :=
    drawRows_spec (Function.update s.v 15 0 x % 64) (Function.update s.v 15 0 y % 32) n 0
      { s with v := Function.update s.v 15 0 }
      (fun j hj => by dsimp only; omega)
  dsimp only at hloop hv hf hne
  rw [Function.update_same] at hf
  refine ⟨{ v := sD.v, dt := sD.dt, st := sD.st, i := sD.i, pc := sD.pc + 2, sp := sD.sp,
            ram := sD.ram, stack := sD.stack, vram := sD.vram, curr := sD.curr,
            prev := sD.prev, key_just_released := false }, ?_, ?_, ?_, ?_, ?_, ?_⟩
  · simp only [do_next_instruction, hop, hd, execInstr]
    rw [hloop]
  · exact hv
  · intro py px
    rw [drawHitB_iff]
    constructor
    · rintro ⟨r, -, hr2, c, hc, hs, h1, h2, h3, h4⟩
      exact ⟨r, by omega, c, hc, hs, h1, h2, h3, h4⟩
    · rintro ⟨r, hr, c, hc, hs, h1, h2, h3, h4⟩
      exact ⟨r, by omega, by omega, c, hc, hs, h1, h2, h3, h4⟩
  · exact hf
  · rw [hf]
    cases hcol : drawCollideB (Function.update s.v 15 0 x % 64)
        (Function.update s.v 15 0 y % 32) (fun r => s.ram (s.i + r)) s.vram 0 n
    · simp only [Bool.false_eq_true, if_false]
      constructor
      · intro h
        exact absurd h (by omega)
      · rintro ⟨r, hr, c, hc, hs, h1, h2, h3⟩
        have htrue : drawCollideB (Function.update s.v 15 0 x % 64)
            (Function.update s.v 15 0 y % 32) (fun r => s.ram (s.i + r)) s.vram 0 n = true :=
          (drawCollideB_iff _ _ _ _ n 0).mpr ⟨r, by omega, by omega, c, hc, hs, h1, h2, h3⟩
        rw [hcol] at htrue
        exact absurd htrue (by simp)
    · rw [if_pos rfl]
      rw [drawCollideB_iff] at hcol
      obtain ⟨r, -, hr2, c, hc, hs, h1, h2, h3⟩ := hcol
      exact ⟨fun _ => ⟨r, by omega, c, hc, hs, h1, h2, h3⟩, fun _ => rfl⟩
  · intro t ht
    rw [hne t ht]
    exact Function.update_noteq ht _ _

/-- C1 (counterexample): `DRW V0, V1, 2` with `I = 4095` reads the second
sprite row from RAM index 4096 and panics, so the claim's description of the
draw behaviour does not hold for every machine state. -/
theorem C1_draw_oob_counterexample :
    decode 0xD012 = .Draw 0 1 2 ∧ drawOOBState.i = 4095 ∧
    do_next_instruction 0 drawOOBState = .panic :=
  ⟨rfl, rfl, rfl⟩

/-- C1 (witness): `DRW V0, V1, 1` with sprite byte `0x80` at `I = 0` from the
origin turns on pixel `(0, 0)` and reports no collision. -/
theorem C1_draw_semantics_witness :
    ∃ s', do_next_instruction 0 drawWitState = .ok 0xD011 s' ∧
      s'.vram 0 0 = true ∧ s'.v 15 = 0 := by
  obtain ⟨s', hok, hv, -, hf, -, -⟩ :=
    C1_draw_semantics 0 drawWitState 0xD011 0 1 1 0 0 rfl rfl (by decide) (by decide)
      (by decide)
  refine ⟨s', hok, ?_, ?_⟩
  · rw [hv 0 0, if_pos (by decide)]
    decide
  · rw [hf, if_neg (by decide)]
